import Mathlib

/-!
ConstraintGuard: the embedded drone flight controller.

A shallow embedding of `TestDroneProject/Embedded Drone System2/flight_controller.cpp`
and the properties its design document states about it.

Conventions of the embedding.

* A C object with a declared extent (`altitude_history[256]`, `payload[64]`, the
  `count` slots of a speed array) is a list holding exactly its declared slots.
  A slot holds `some v` when its value is determined and `none` when it is
  indeterminate (storage that was never initialised).
* A load from an index outside the declared extent yields `none`; a store to an
  index outside the declared extent does not land in the object.  Every function
  that indexes an array also returns the indices it used, in execution order, so
  that out-of-range accesses stay visible.
* `int` arithmetic is done in `Int` and wrapped to 32 bits two's complement.
* `float` arithmetic is a parameter (`FloatOps`): the embedding records which
  operation is applied to which operands, not how the target rounds.
* An array whose lifetime has ended is indeterminate in every slot (`expired`).
-/

namespace FlightController

/-! ## Machine integers and floats -/

/-- Wrap an integer to the range of a 32-bit two's complement `int`. -/
def wrapInt32 (x : Int) : Int := (x + 2 ^ 31) % 2 ^ 32 - 2 ^ 31

/-- The binary32 operations of the target.  `lit m k` is the literal whose decimal
digits are `m` with `k` digits after the point (`lit 12 1` is `1.2f`), `ofBits` is
the reinterpretation `*(float*)p` of a 32-bit word and `toRat` is the number a
finite float denotes. -/
structure FloatOps (F : Type) where
  ofBits : Nat → F
  lit : Nat → Nat → F
  add : F → F → F
  sub : F → F → F
  mul : F → F → F
  div : F → F → F
  toRat : F → ℚ

/-- The integer part of a rational, toward zero: the numerator divided by the
denominator with the quotient truncated. -/
def truncToInt (q : ℚ) : Int := Int.tdiv q.num q.den

/-- The cast `(int)x` of a float: the number `x` denotes with its fractional part
discarded (truncation toward zero). -/
def castInt {F : Type} (ops : FloatOps F) (x : F) : Int := truncToInt (ops.toRat x)

/-- Lift a binary operation to possibly indeterminate operands. -/
def lift2 {α β γ : Type} (f : α → β → γ) : Option α → Option β → Option γ
  | some x, some y => some (f x y)
  | _, _ => none

/-! ## Arrays with a declared extent -/

/-- Load slot `i` of an array: `none` outside the declared extent. -/
def loadAt {α : Type} (arr : List (Option α)) (i : Nat) : Option α :=
  arr.getD i none

/-- Store into slot `i` of an array: a store outside the declared extent does not
land in the array. -/
def storeAt {α : Type} (arr : List (Option α)) (i : Nat) (v : Option α) : List (Option α) :=
  arr.set i v

/-- Load through a signed index. -/
def loadAtInt {α : Type} (arr : List (Option α)) (i : Int) : Option α :=
  if 0 ≤ i then loadAt arr i.toNat else none

/-- Store through a signed index. -/
def storeAtInt {α : Type} (arr : List (Option α)) (i : Int) (v : Option α) :
    List (Option α) :=
  if 0 ≤ i then storeAt arr i.toNat v else arr

/-! ## Sensor reading and vertical speed -/

/-- The record `struct SensorReading`. -/
structure SensorReading (F : Type) where
  accel_x : Option F
  accel_y : Option F
  accel_z : Option F
  gyro_x : Option F
  gyro_y : Option F
  gyro_z : Option F
  altitude : Option F
  battery_voltage : Option F
  timestamp_us : Option Nat

/-- An access to `altitude_history`, with the index used. -/
inductive HistoryAccess where
  | write (i : Int)
  | read (i : Int)
  deriving DecidableEq, Repr

/-- The index an access uses. -/
def HistoryAccess.index : HistoryAccess → Int
  | .write i => i
  | .read i => i

/-- The file-scope state `altitude_history[256]` and `history_index`. -/
structure HistoryState (F : Type) where
  altitude_history : List (Option F)
  history_index : Int

/-- The number of slots of `altitude_history`. -/
def historyCapacity : Nat := 256

/-- The state at program start: statics are zero-initialised. -/
def initialState {F : Type} (ops : FloatOps F) : HistoryState F :=
  { altitude_history := List.replicate historyCapacity (some (ops.lit 0 1))
    history_index := 0 }

/-- What one call of `compute_vertical_speed` yields: the returned value, the
state it leaves and the accesses to `altitude_history` it made. -/
structure SpeedResult (F : Type) where
  value : Option F
  state : HistoryState F
  accesses : List HistoryAccess

/-- The function `compute_vertical_speed`: store the altitude at `history_index`, increment the
index, and return `0.0f` while fewer than two samples exist, otherwise the
difference of the slots at `history_index - 1` and `history_index - 2` over
`dt = 0.01f`. -/
def compute_vertical_speed {F : Type} (ops : FloatOps F) (st : HistoryState F)
    (altitude : Option F) : SpeedResult F :=
  let hist := storeAtInt st.altitude_history st.history_index altitude
  let idx := wrapInt32 (st.history_index + 1)
  if idx < 2 then
    { value := some (ops.lit 0 1)
      state := { altitude_history := hist, history_index := idx }
      accesses := [.write st.history_index] }
  else
    let dt := ops.lit 1 2
    { value := lift2 ops.div
        (lift2 ops.sub (loadAtInt hist (idx - 1)) (loadAtInt hist (idx - 2))) (some dt)
      state := { altitude_history := hist, history_index := idx }
      accesses := [.write st.history_index, .read (idx - 1), .read (idx - 2)] }

/-- The state after the first `n` observations `alt 0, …, alt (n-1)`, starting from
the state at program start. -/
def stateAfter {F : Type} (ops : FloatOps F) (alt : Nat → F) : Nat → HistoryState F
  | 0 => initialState ops
  | n + 1 => (compute_vertical_speed ops (stateAfter ops alt n) (some (alt n))).state

/-- The call that makes observation number `n + 1` (the altitude `alt n`), after the
`n` observations before it. -/
def observation {F : Type} (ops : FloatOps F) (alt : Nat → F) (n : Nat) : SpeedResult F :=
  compute_vertical_speed ops (stateAfter ops alt n) (some (alt n))

/-- The function `isr_read_imu`: words 0 to 7 of the register block reinterpreted as floats and
word 8 taken as the unsigned 32-bit timestamp.  The block is the list of its words;
a word outside the block is indeterminate. -/
def isr_read_imu {F : Type} (ops : FloatOps F) (sensor_base : List Nat) : SensorReading F :=
  { accel_x := (sensor_base.get? 0).map ops.ofBits
    accel_y := (sensor_base.get? 1).map ops.ofBits
    accel_z := (sensor_base.get? 2).map ops.ofBits
    gyro_x := (sensor_base.get? 3).map ops.ofBits
    gyro_y := (sensor_base.get? 4).map ops.ofBits
    gyro_z := (sensor_base.get? 5).map ops.ofBits
    altitude := (sensor_base.get? 6).map ops.ofBits
    battery_voltage := (sensor_base.get? 7).map ops.ofBits
    timestamp_us := (sensor_base.get? 8).map (fun w => w % 2 ^ 32) }

/-! ## Telemetry -/

/-- The record `struct TelemetryPacket`: `header[4]`, `payload[64]`, `checksum`. -/
structure TelemetryPacket where
  header : List (Option Nat)
  payload : List (Option Nat)
  checksum : Option Nat
  deriving DecidableEq, Repr

/-- The number of slots of `payload`. -/
def payloadCapacity : Nat := 64

/-- The packet as `malloc` returns it: nothing initialised. -/
def freshPacket : TelemetryPacket :=
  { header := List.replicate 4 none
    payload := List.replicate payloadCapacity none
    checksum := none }

/-- The bytes `strcpy` transfers from a source: everything up to and including the
first zero byte.  When the source holds no zero byte the copy runs on past it; the
bytes listed are then those taken from the source itself. -/
def strcpy_bytes : List Nat → List Nat
  | [] => []
  | b :: bs => if b = 0 then [0] else b :: strcpy_bytes bs

/-- Store the bytes `bs` at the consecutive indices `i, i+1, …` of `dst`. -/
def storeBytes (dst : List (Option Nat)) : Nat → List Nat → List (Option Nat)
  | _, [] => dst
  | i, b :: bs => storeBytes (storeAt dst i (some b)) (i + 1) bs

/-- The checksum loop `for (i = 0; i < length; i++) checksum ^= raw_data[i];` on a
`uint8_t` accumulator starting at 0. -/
def checksum_loop (raw_data : List Nat) (length : Int) : Option Nat :=
  (List.range length.toNat).foldl
    (fun c i => lift2 (fun x b => (x ^^^ b) % 256) c (raw_data.get? i)) (some 0)

/-- What `process_telemetry` yields: the packet it built and the indices of
`payload` it stored to, in order. -/
structure TelemetryResult where
  packet : TelemetryPacket
  payload_writes : List Nat
  deriving DecidableEq, Repr

/-- The function `process_telemetry`: copy 4 header bytes, copy the rest with `strcpy` when
`length > 64`, and store the XOR of the first `length` input bytes.  `raw_data` is
the input buffer as a list of bytes. -/
def process_telemetry (raw_data : List Nat) (length : Int) : TelemetryResult :=
  let packet := freshPacket
  let header := (List.range 4).map (fun i => raw_data.get? i)
  let copied := if length > 64 then strcpy_bytes (raw_data.drop 4) else []
  let payload := storeBytes packet.payload 0 copied
  let checksum := checksum_loop raw_data length
  { packet := { header := header, payload := payload, checksum := checksum }
    payload_writes := List.range copied.length }

/-! ## PID gains -/

/-- The storage of an array once its lifetime has ended: every slot is
indeterminate. -/
def expired {α : Type} (arr : List (Option α)) : List (Option α) :=
  arr.map (fun _ => none)

/-- The body of `get_pid_gains`: the contents of the local `gains[3]` at the
`return` statement.  The array starts uninitialised and the `switch` has the cases
0, 1, 2 and no `default`.  The function returns the address of this local array;
what a caller reads through that pointer is `gains_read_by_caller`. -/
def get_pid_gains {F : Type} (ops : FloatOps F) (axis : Int) : List (Option F) :=
  let gains : List (Option F) := [none, none, none]
  if axis = 0 then
    storeAt (storeAt (storeAt gains 0 (some (ops.lit 12 1))) 1 (some (ops.lit 1 2))) 2
      (some (ops.lit 5 1))
  else if axis = 1 then
    storeAt (storeAt (storeAt gains 0 (some (ops.lit 10 1))) 1 (some (ops.lit 2 2))) 2
      (some (ops.lit 4 1))
  else if axis = 2 then
    storeAt (storeAt (storeAt gains 0 (some (ops.lit 8 1))) 1 (some (ops.lit 5 3))) 2
      (some (ops.lit 3 1))
  else gains

/-- What the caller of `get_pid_gains` reads through the pointer it gets back: the
function returns `gains`, an array local to it, whose lifetime ends at the return,
so the caller reads an expired array. -/
def gains_read_by_caller {F : Type} (ops : FloatOps F) (axis : Int) : List (Option F) :=
  expired (get_pid_gains ops axis)

/-! ## Motor speeds -/

/-- An access made by `update_motor_speeds`, with the array and the index used. -/
inductive MixAccess where
  | readSpeeds (i : Nat)
  | writeAdjusted (i : Nat)
  | readAdjusted (i : Nat)
  | writeSpeeds (i : Nat)
  deriving DecidableEq, Repr

/-- The index an access uses. -/
def MixAccess.index : MixAccess → Nat
  | .readSpeeds i => i
  | .writeAdjusted i => i
  | .readAdjusted i => i
  | .writeSpeeds i => i

/-- The expression `s * 95 / 100` on `int`: a 32-bit product, then a division that
truncates toward zero. -/
def damp (s : Int) : Int := Int.tdiv (wrapInt32 (s * 95)) 100

/-- The state `update_motor_speeds` works on: the caller's array, the scratch
buffer, and the accesses made so far. -/
structure MixState where
  speeds : List (Option Int)
  adjusted : List (Option Int)
  accesses : List MixAccess
  deriving DecidableEq, Repr

/-- Body of the first loop: `adjusted[i] = speeds[i] * 95 / 100;`. -/
def first_loop_body (s : MixState) (i : Nat) : MixState :=
  { s with
    adjusted := storeAt s.adjusted i ((loadAt s.speeds i).map damp)
    accesses := s.accesses ++ [.readSpeeds i, .writeAdjusted i] }

/-- Body of the second loop: `speeds[i] = adjusted[i];`. -/
def second_loop_body (s : MixState) (i : Nat) : MixState :=
  { s with
    speeds := storeAt s.speeds i (loadAt s.adjusted i)
    accesses := s.accesses ++ [.readAdjusted i, .writeSpeeds i] }

/-- The function `update_motor_speeds`: `speeds` is the caller's array (its declared slots),
`count` the length passed.  The scratch buffer has `count` uninitialised slots; the
first loop runs for `i = 0, …, count` (bound `i <= count`), the second for
`i = 0, …, count - 1`. -/
def update_motor_speeds (speeds : List (Option Int)) (count : Int) : MixState :=
  let s0 : MixState :=
    { speeds := speeds, adjusted := List.replicate count.toNat none, accesses := [] }
  let s1 := (List.range (count + 1).toNat).foldl first_loop_body s0
  (List.range count.toNat).foldl second_loop_body s1

/-! ## The control loop -/

/-- What one call of `control_loop` yields: the vertical speed, the correction, the
speed array handed to `update_motor_speeds`, the array after it (the values
printed), the history state left behind, and the array accesses made. -/
structure TickResult (F : Type) where
  vspeed : Option F
  correction : Option F
  base_speeds : List (Option Int)
  motor_speeds : List (Option Int)
  state : HistoryState F
  history_accesses : List HistoryAccess
  mix_accesses : List MixAccess

/-- The statements of `control_loop`, with the array read through the pointer
`gains` as a parameter: read the sensors, estimate the vertical speed, form
`gains[0] * accel_z + gains[2] * vspeed`, add its `int` cast to motor 0 and subtract
it from motor 2 of `{1000, 1000, 1000, 1000}`, and call `update_motor_speeds` on the
four speeds. -/
def control_loop_with {F : Type} (ops : FloatOps F) (gains : List (Option F))
    (st : HistoryState F) (sensor_base : List Nat) : TickResult F :=
  let reading := isr_read_imu ops sensor_base
  let r := compute_vertical_speed ops st reading.altitude
  let vspeed := r.value
  let correction :=
    lift2 ops.add (lift2 ops.mul (loadAt gains 0) reading.accel_z)
      (lift2 ops.mul (loadAt gains 2) vspeed)
  let c : Option Int := correction.map (castInt ops)
  let motor_speeds : List (Option Int) := [some 1000, some 1000, some 1000, some 1000]
  let motor_speeds :=
    storeAt motor_speeds 0 (lift2 (fun a b => wrapInt32 (a + b)) (loadAt motor_speeds 0) c)
  let motor_speeds :=
    storeAt motor_speeds 2 (lift2 (fun a b => wrapInt32 (a - b)) (loadAt motor_speeds 2) c)
  let m := update_motor_speeds motor_speeds 4
  { vspeed := vspeed
    correction := correction
    base_speeds := motor_speeds
    motor_speeds := m.speeds
    state := r.state
    history_accesses := r.accesses
    mix_accesses := m.accesses }

/-- The function `control_loop`: its statements run on what `get_pid_gains(2)` hands
back, a pointer to an array that no longer exists. -/
def control_loop {F : Type} (ops : FloatOps F) (st : HistoryState F)
    (sensor_base : List Nat) : TickResult F :=
  control_loop_with ops (gains_read_by_caller ops 2) st sensor_base

/-- The function `main`: two calls of `control_loop` on a block of ten zero words; the results of
the first and of the second call. -/
def main {F : Type} (ops : FloatOps F) : TickResult F × TickResult F :=
  let fake_sensor_base : List Nat := List.replicate 10 0
  let t1 := control_loop ops (initialState ops) fake_sensor_base
  let t2 := control_loop ops t1.state fake_sensor_base
  (t1, t2)

/-- Exact rational arithmetic, as one instance of `FloatOps`: literals and the four
operations without rounding, a float denoting itself. -/
def exactOps : FloatOps ℚ where
  ofBits := fun w => (w : ℚ)
  lit := fun m k => (m : ℚ) / (10 : ℚ) ^ k
  add := fun a b => a + b
  sub := fun a b => a - b
  mul := fun a b => a * b
  div := fun a b => a / b
  toRat := fun a => a

/-! ## Properties used in the statements -/

/-- The design document's rounding rule, `adjusted[i] = round(baseSpeeds[i] * 0.95)`:
`z` is `x` rounded to the nearest integer when no integer is closer to `x` than `z`
(whatever the rule for ties). -/
def IsNearestInt (x : ℚ) (z : Int) : Prop :=
  ∀ w : Int, |x - (z : ℚ)| ≤ |x - (w : ℚ)|

/-- The number a binary32 bit pattern denotes, for the finite patterns: sign in bit
31, biased exponent in bits 30 to 23, fraction in bits 22 to 0. -/
def binary32Value (w : Nat) : ℚ :=
  let sign : ℚ := if w / 2 ^ 31 % 2 = 1 then -1 else 1
  let e : Nat := w / 2 ^ 23 % 256
  let m : Nat := w % 2 ^ 23
  if e = 0 then sign * (m : ℚ) / (2 : ℚ) ^ 149
  else sign * (((2 ^ 23 + m : Nat) : ℚ) * (2 : ℚ) ^ e) / (2 : ℚ) ^ 150

/-- Exact rational arithmetic on the numbers the register words denote: as `exactOps`,
with a word read through `binary32Value`. -/
def decodedOps : FloatOps ℚ :=
  { exactOps with ofBits := binary32Value }

end FlightController

/-! ## The defect catalogue `examples/vuln_demo/main.c` -/

namespace VulnDemo

/-- The statement `int total = rows * cols;` of `allocate_matrix`: the product as a
signed 32-bit `int`. -/
def allocate_matrix_total (rows cols : Int) : Int :=
  FlightController.wrapInt32 (rows * cols)

/-- The function `allocate_matrix`: the size it hands to `malloc`, `(size_t)total`,
for a `size_t` of `sizeBits` bits. -/
def allocate_matrix (sizeBits : Nat) (rows cols : Int) : Nat :=
  (allocate_matrix_total rows cols % 2 ^ sizeBits).toNat

/-- The call `allocate_matrix(1000, 1000000)` made by the demo's `main`. -/
def main_matrix_request (sizeBits : Nat) : Nat :=
  allocate_matrix sizeBits 1000 1000000

end VulnDemo

namespace FlightController

/-! ## Lemmas on arrays -/

theorem storeAt_length {α : Type} (arr : List (Option α)) (i : Nat) (v : Option α) :
    (storeAt arr i v).length = arr.length := by
  simp [storeAt]

theorem storeAt_getElem? {α : Type} (arr : List (Option α)) (i j : Nat) (v : Option α) :
    (storeAt arr i v)[j]? = if i = j ∧ i < arr.length then some v else arr[j]? := by
  unfold storeAt
  rw [List.getElem?_set]
  by_cases hij : i = j
  · subst hij
    by_cases hl : i < arr.length
    · simp [hl]
    · simp [hl]
      omega
  · simp [hij]

theorem loadAt_eq {α : Type} (arr : List (Option α)) (i : Nat) :
    loadAt arr i = (arr[i]?).getD none := by
  unfold loadAt
  rw [List.getD_eq_getElem?_getD]

/-! ## Lemmas on the altitude history -/

theorem wrapInt32_of_range (x : Int) (h1 : -2 ^ 31 ≤ x) (h2 : x < 2 ^ 31) :
    wrapInt32 x = x := by
  unfold wrapInt32
  rw [Int.emod_eq_of_lt (by omega) (by omega)]
  omega

theorem stateAfter_index {F : Type} (ops : FloatOps F) (alt : Nat → F) (n : Nat)
    (hn : n < 2 ^ 31) : (stateAfter ops alt n).history_index = n := by
  induction n with
  | zero => rfl
  | succ k ih =>
    have hk := ih (by omega)
    simp only [stateAfter, compute_vertical_speed, hk]
    have hw : wrapInt32 ((k : Int) + 1) = (k : Int) + 1 :=
      wrapInt32_of_range _ (by omega) (by omega)
    rw [hw]
    split <;> simp

theorem stateAfter_length {F : Type} (ops : FloatOps F) (alt : Nat → F) (n : Nat) :
    (stateAfter ops alt n).altitude_history.length = historyCapacity := by
  induction n with
  | zero => simp [stateAfter, initialState]
  | succ k ih =>
    simp only [stateAfter, compute_vertical_speed]
    split <;> (simp only [storeAtInt]; split <;> simp [storeAt, ih])

theorem compute_vertical_speed_history {F : Type} (ops : FloatOps F) (st : HistoryState F)
    (a : Option F) :
    (compute_vertical_speed ops st a).state.altitude_history =
      storeAtInt st.altitude_history st.history_index a := by
  simp only [compute_vertical_speed]
  split <;> rfl

theorem compute_vertical_speed_index {F : Type} (ops : FloatOps F) (st : HistoryState F)
    (a : Option F) :
    (compute_vertical_speed ops st a).state.history_index =
      wrapInt32 (st.history_index + 1) := by
  simp only [compute_vertical_speed]
  split <;> rfl

/-- While the history is not full, slot `k` holds observation `k` for every
observation made so far. -/
theorem stateAfter_slot {F : Type} (ops : FloatOps F) (alt : Nat → F) (n k : Nat)
    (hn : n ≤ historyCapacity) (hk : k < n) :
    (stateAfter ops alt n).altitude_history[k]? = some (some (alt k)) := by
  induction n with
  | zero => omega
  | succ m ih =>
    have hcap : historyCapacity = 256 := rfl
    have hm : m < 2 ^ 31 := by omega
    simp only [stateAfter]
    rw [compute_vertical_speed_history, stateAfter_index ops alt m hm]
    unfold storeAtInt
    rw [if_pos (by omega)]
    simp only [Int.toNat_ofNat]
    unfold storeAt
    rw [List.getElem?_set]
    by_cases hmk : m = k
    · subst hmk
      have hl : m < (stateAfter ops alt m).altitude_history.length := by
        rw [stateAfter_length]; omega
      simp [hl]
    · rw [if_neg hmk]
      exact ih (by omega) (by omega)

/-- Observation number `n + 1`, for `1 ≤ n < 256`: the accesses stay inside the
array and the value returned is the last difference over `dt`. -/
theorem observation_within_capacity {F : Type} (ops : FloatOps F) (alt : Nat → F) (n : Nat)
    (h1 : 1 ≤ n) (h2 : n < historyCapacity) :
    (observation ops alt n).value =
        some (ops.div (ops.sub (alt n) (alt (n - 1))) (ops.lit 1 2)) ∧
      (observation ops alt n).accesses =
        [HistoryAccess.write n, HistoryAccess.read n, HistoryAccess.read (n - 1)] := by
  have hcap : historyCapacity = 256 := rfl
  have hslot := stateAfter_slot ops alt (n + 1) n (by omega) (by omega)
  have hslot2 := stateAfter_slot ops alt (n + 1) (n - 1) (by omega) (by omega)
  simp only [stateAfter] at hslot hslot2
  rw [compute_vertical_speed_history, stateAfter_index ops alt n (by omega)] at hslot hslot2
  unfold observation compute_vertical_speed
  rw [stateAfter_index ops alt n (by omega)]
  have hw : wrapInt32 ((n : Int) + 1) = (n : Int) + 1 :=
    wrapInt32_of_range _ (by omega) (by omega)
  rw [hw]
  have hlt : ¬ ((n : Int) + 1 < 2) := by omega
  simp only [if_neg hlt]
  have e1 : (n : Int) + 1 - 1 = (n : Int) := by omega
  have e2 : (n : Int) + 1 - 2 = ((n - 1 : Nat) : Int) := by omega
  rw [e1, e2]
  constructor
  · unfold loadAtInt
    rw [if_pos (by omega), if_pos (by omega)]
    simp only [Int.toNat_ofNat]
    rw [loadAt_eq, loadAt_eq, hslot, hslot2]
    rfl
  · have e3 : ((n - 1 : Nat) : Int) = (n : Int) - 1 := by omega
    rw [e3]

/-! ## Lemmas on the telemetry checksum -/

theorem checksum_loop_append (bs rest : List Nat) (hb : ∀ b ∈ bs, b < 256) :
    checksum_loop (bs ++ rest) bs.length = some (bs.foldl (fun x b => x ^^^ b) 0) ∧
      bs.foldl (fun x b => x ^^^ b) 0 < 256 := by
  unfold checksum_loop
  simp only [Int.toNat_ofNat]
  induction bs using List.reverseRecOn with
  | nil => simp
  | append_singleton l a ih =>
    have hl : ∀ b ∈ l, b < 256 := fun b hb1 => hb b (by simp [hb1])
    have ha : a < 256 := hb a (by simp)
    obtain ⟨ih1, ih2⟩ := ih hl
    have hx : List.foldl (fun x b => x ^^^ b) 0 l ^^^ a < 256 :=
      Nat.xor_lt_two_pow (n := 8) ih2 ha
    refine ⟨?_, by simpa [List.foldl_append] using hx⟩
    rw [List.length_append, List.length_singleton, List.range_succ, List.foldl_append]
    have hfold : List.foldl
        (fun c i => lift2 (fun x b => (x ^^^ b) % 256) c ((l ++ [a] ++ rest).get? i))
        (some 0) (List.range l.length) =
        List.foldl (fun c i => lift2 (fun x b => (x ^^^ b) % 256) c ((l ++ rest).get? i))
        (some 0) (List.range l.length) := by
      apply List.foldl_ext
      intro c i hi
      have hi2 : i < l.length := List.mem_range.mp hi
      simp [List.getElem?_append_left, hi2]
    rw [hfold, ih1]
    simp only [List.foldl_cons, List.foldl_nil, List.foldl_append]
    have hget : (l ++ [a] ++ rest).get? l.length = some a := by
      rw [List.get?_eq_getElem?, List.append_assoc,
        List.getElem?_append_right (Nat.le_refl _)]
      simp
    rw [hget]
    simp only [lift2]
    rw [Nat.mod_eq_of_lt hx]

/-! ## Lemmas on the two loops of `update_motor_speeds` -/

theorem first_loop_speeds (s : MixState) (l : List Nat) :
    (l.foldl first_loop_body s).speeds = s.speeds := by
  induction l generalizing s with
  | nil => rfl
  | cons i l ih => simp only [List.foldl_cons]; rw [ih]; rfl

theorem second_loop_adjusted (s : MixState) (l : List Nat) :
    (l.foldl second_loop_body s).adjusted = s.adjusted := by
  induction l generalizing s with
  | nil => rfl
  | cons i l ih => simp only [List.foldl_cons]; rw [ih]; rfl

theorem first_loop_accesses (s : MixState) (l : List Nat) :
    (l.foldl first_loop_body s).accesses =
      s.accesses ++ l.flatMap (fun i => [MixAccess.readSpeeds i, MixAccess.writeAdjusted i]) := by
  induction l generalizing s with
  | nil => simp
  | cons i l ih =>
    simp only [List.foldl_cons, List.flatMap_cons]
    rw [ih]
    simp [first_loop_body]

theorem second_loop_accesses (s : MixState) (l : List Nat) :
    (l.foldl second_loop_body s).accesses =
      s.accesses ++ l.flatMap (fun i => [MixAccess.readAdjusted i, MixAccess.writeSpeeds i]) := by
  induction l generalizing s with
  | nil => simp
  | cons i l ih =>
    simp only [List.foldl_cons, List.flatMap_cons]
    rw [ih]
    simp [second_loop_body]

theorem first_loop_adjusted_length (s : MixState) (l : List Nat) :
    (l.foldl first_loop_body s).adjusted.length = s.adjusted.length := by
  induction l generalizing s with
  | nil => rfl
  | cons i l ih =>
    simp only [List.foldl_cons]
    rw [ih]
    simp [first_loop_body, storeAt_length]

theorem second_loop_speeds_length (s : MixState) (l : List Nat) :
    (l.foldl second_loop_body s).speeds.length = s.speeds.length := by
  induction l generalizing s with
  | nil => rfl
  | cons i l ih =>
    simp only [List.foldl_cons]
    rw [ih]
    simp [second_loop_body, storeAt_length]

theorem first_loop_adjusted (s : MixState) (m j : Nat) :
    ((List.range m).foldl first_loop_body s).adjusted[j]? =
      if j < m ∧ j < s.adjusted.length then some ((loadAt s.speeds j).map damp)
      else s.adjusted[j]? := by
  induction m with
  | zero => simp
  | succ k ih =>
    rw [List.range_succ, List.foldl_append]
    simp only [List.foldl_cons, List.foldl_nil, first_loop_body]
    rw [storeAt_getElem?, ih, first_loop_adjusted_length, first_loop_speeds]
    by_cases hkj : k = j
    · subst hkj
      by_cases hl : k < s.adjusted.length
      · simp [hl]
      · simp [hl]
    · have hne : ¬ (k = j ∧ k < s.adjusted.length) := fun h => hkj h.1
      rw [if_neg hne]
      by_cases hjk : j < k
      · have : j < k + 1 := by omega
        simp [hjk, this]
      · have : ¬ j < k + 1 := by omega
        simp [hjk, this]

theorem second_loop_speeds (s : MixState) (m j : Nat) :
    ((List.range m).foldl second_loop_body s).speeds[j]? =
      if j < m ∧ j < s.speeds.length then some (loadAt s.adjusted j)
      else s.speeds[j]? := by
  induction m with
  | zero => simp
  | succ k ih =>
    rw [List.range_succ, List.foldl_append]
    simp only [List.foldl_cons, List.foldl_nil, second_loop_body]
    rw [storeAt_getElem?, ih, second_loop_speeds_length, second_loop_adjusted]
    by_cases hkj : k = j
    · subst hkj
      by_cases hl : k < s.speeds.length
      · simp [hl]
      · simp [hl]
    · have hne : ¬ (k = j ∧ k < s.speeds.length) := fun h => hkj h.1
      rw [if_neg hne]
      by_cases hjk : j < k
      · have : j < k + 1 := by omega
        simp [hjk, this]
      · have : ¬ j < k + 1 := by omega
        simp [hjk, this]

/-- The array `update_motor_speeds` leaves behind when `count` is the declared
length: every slot holds the damped value of what it held before. -/
theorem update_motor_speeds_speeds (speeds : List (Option Int)) :
    (update_motor_speeds speeds speeds.length).speeds = speeds.map (fun v => v.map damp) := by
  apply List.ext_getElem?
  intro j
  unfold update_motor_speeds
  simp only [Int.toNat_ofNat]
  have h1 : ((speeds.length : Int) + 1).toNat = speeds.length + 1 := by omega
  rw [h1, second_loop_speeds, first_loop_speeds]
  simp only [List.getElem?_map]
  by_cases hj : j < speeds.length
  · rw [if_pos ⟨hj, hj⟩, loadAt_eq, first_loop_adjusted]
    simp only [List.length_replicate]
    rw [if_pos ⟨by omega, hj⟩]
    simp [loadAt_eq, List.getElem?_eq_getElem hj]
  · rw [if_neg (fun h => hj h.1)]
    simp [List.getElem?_eq_none (Nat.le_of_not_lt hj)]

/-! ## The altitude history (C1, C8, C9) -/

/-- C1 (fails on the code): from the empty history, observation number 257 stores to
slot 256 of `altitude_history` and loads slots 256 and 255; slot 256 is outside the
256 declared slots, so the write position does not wrap at the capacity. -/
theorem history_access_past_capacity {F : Type} (ops : FloatOps F) (alt : Nat → F) :
    (observation ops alt 256).accesses =
        [HistoryAccess.write 256, HistoryAccess.read 256, HistoryAccess.read 255] ∧
      ¬ ∀ a ∈ (observation ops alt 256).accesses,
          0 ≤ a.index ∧ a.index < (historyCapacity : Int) := by
  have hacc : (observation ops alt 256).accesses =
      [HistoryAccess.write 256, HistoryAccess.read 256, HistoryAccess.read 255] := by
    unfold observation
    simp only [compute_vertical_speed]
    rw [stateAfter_index ops alt 256 (by norm_num)]
    rfl
  refine ⟨hacc, ?_⟩
  intro h
  have h1 := h (HistoryAccess.write 256) (by rw [hacc]; simp)
  simp [HistoryAccess.index, historyCapacity] at h1

/-- C8 (fails on the code): from the empty history, observation number 257 does not
return `(a_257 - a_256) / dt`: the slot it loads as the latest sample is slot 256,
outside the array, so the value returned is indeterminate. -/
theorem vertical_speed_past_capacity {F : Type} (ops : FloatOps F) (alt : Nat → F) :
    (observation ops alt 256).value = none := by
  unfold observation
  simp only [compute_vertical_speed]
  rw [stateAfter_index ops alt 256 (by norm_num)]
  have hw : wrapInt32 (((256 : Nat) : Int) + 1) = 257 := by decide
  rw [hw]
  have hlt : ¬ ((257 : Int) < 2) := by decide
  simp only [if_neg hlt]
  have hload : loadAtInt
      (storeAtInt (stateAfter ops alt 256).altitude_history ((256 : Nat) : Int)
        (some (alt 256))) (257 - 1) = none := by
    unfold loadAtInt storeAtInt
    rw [if_pos (by decide), if_pos (by decide)]
    have e : ((257 : Int) - 1).toNat = 256 := by decide
    rw [e, loadAt_eq, List.getElem?_eq_none]
    · rfl
    · rw [storeAt_length, stateAfter_length]
      exact Nat.le_refl _
  rw [hload]
  rfl

/-- C9: from the empty history, the first call of `compute_vertical_speed` returns
`0.0f`, and the second call returns the float quotient of the float difference
`a2 - a1` by `dt = 0.01f`. -/
theorem first_two_observations {F : Type} (ops : FloatOps F) (a1 a2 : F) :
    (compute_vertical_speed ops (initialState ops) (some a1)).value = some (ops.lit 0 1) ∧
      (compute_vertical_speed ops
          (compute_vertical_speed ops (initialState ops) (some a1)).state (some a2)).value =
        some (ops.div (ops.sub a2 a1) (ops.lit 1 2)) := by
  constructor <;> rfl

/-! ## The motor speeds (C2, C10) -/

/-- C2 (fails on the code): for every speed array, with `count` its declared length
`N`, `update_motor_speeds` loads `speeds[N]` and stores `adjusted[N]`: index `N` of
both the speed array and the scratch buffer is used. -/
theorem update_motor_speeds_uses_index_count (speeds : List (Option Int)) :
    MixAccess.readSpeeds speeds.length ∈
        (update_motor_speeds speeds speeds.length).accesses ∧
      MixAccess.writeAdjusted speeds.length ∈
        (update_motor_speeds speeds speeds.length).accesses := by
  unfold update_motor_speeds
  simp only [Int.toNat_ofNat]
  have h1 : ((speeds.length : Int) + 1).toNat = speeds.length + 1 := by omega
  rw [h1, second_loop_accesses, first_loop_accesses]
  constructor <;>
    simp only [List.nil_append, List.mem_append, List.mem_flatMap, List.mem_range] <;>
    exact Or.inl ⟨speeds.length, Nat.lt_succ_self _, by simp⟩

/-- C10 (as stated, fails): for the one-element vector `[1]` the mixer produces 0,
and 0 is not `1 * 0.95` rounded to the nearest integer (1 is closer). -/
theorem damping_not_nearest :
    loadAt (update_motor_speeds [some 1] 1).speeds 0 = some 0 ∧
      ¬ IsNearestInt ((1 : ℚ) * (95 / 100)) 0 := by
  refine ⟨by decide, ?_⟩
  intro h
  have h1 := h 1
  norm_num [abs_of_nonneg, abs_of_nonpos] at h1

/-- C10 (amended): for every base-speed vector and every valid index `i` whose
product `baseSpeeds[i] * 95` fits a signed 32-bit `int`, the speed the mixer
produces is `baseSpeeds[i] * 95 / 100` with the quotient truncated toward zero. -/
theorem damping_truncates (baseSpeeds : List Int) (i : Nat) (hi : i < baseSpeeds.length)
    (hlo : -2 ^ 31 ≤ baseSpeeds.getD i 0 * 95) (hhi : baseSpeeds.getD i 0 * 95 < 2 ^ 31) :
    loadAt (update_motor_speeds (baseSpeeds.map some) baseSpeeds.length).speeds i =
      some (Int.tdiv (baseSpeeds.getD i 0 * 95) 100) := by
  have hlen : (baseSpeeds.map some).length = baseSpeeds.length := List.length_map _ _
  have hrun := update_motor_speeds_speeds (baseSpeeds.map some)
  rw [hlen] at hrun
  rw [hrun, loadAt_eq]
  simp only [List.getElem?_map, List.getD_eq_getElem?_getD, List.getElem?_eq_getElem hi,
    Option.map_some', Option.getD_some, damp]
  rw [wrapInt32_of_range]
  · simpa [List.getD_eq_getElem?_getD, List.getElem?_eq_getElem hi] using hlo
  · simpa [List.getD_eq_getElem?_getD, List.getElem?_eq_getElem hi] using hhi

/-- C10 (amended), at the hover baseline: every slot of `[1000, 1000, 1000, 1000]`
becomes `1000 * 95 / 100`. -/
theorem damping_truncates_witness :
    (2 < [(1000 : Int), 1000, 1000, 1000].length ∧
      -2 ^ 31 ≤ [(1000 : Int), 1000, 1000, 1000].getD 2 0 * 95 ∧
      [(1000 : Int), 1000, 1000, 1000].getD 2 0 * 95 < 2 ^ 31) ∧
    loadAt (update_motor_speeds ([(1000 : Int), 1000, 1000, 1000].map some)
        [(1000 : Int), 1000, 1000, 1000].length).speeds 2 =
      some (Int.tdiv ([(1000 : Int), 1000, 1000, 1000].getD 2 0 * 95) 100) :=
  ⟨⟨by decide, by decide, by decide⟩,
    damping_truncates [1000, 1000, 1000, 1000] 2 (by decide) (by decide) (by decide)⟩

/-! ## Telemetry (C3, C6, C7) -/

/-- C3 (fails on the code): given the header `TLM0` followed by a 65-byte payload of
`A`s and a terminator, with `length = 69`, `process_telemetry` reports no failure and
builds a packet: it stores to the payload indices 0 to 65, of which 64 and 65 lie
past the 64-slot payload region, and stores a checksum. -/
theorem oversized_payload_is_copied :
    (process_telemetry ([84, 76, 77, 48] ++ List.replicate 65 65 ++ [0]) 69).payload_writes
        = List.range 66 ∧
      (process_telemetry ([84, 76, 77, 48] ++ List.replicate 65 65 ++ [0]) 69).packet
        = { header := [some 84, some 76, some 77, some 48]
            payload := List.replicate 64 (some 65)
            checksum := some 36 } ∧
      ¬ ∀ j ∈ (process_telemetry
            ([84, 76, 77, 48] ++ List.replicate 65 65 ++ [0]) 69).payload_writes,
          j < payloadCapacity := by
  decide

/-- C6: for every 4-byte header `h` and every payload `p` (bytes, so below 256), and
whatever follows them in the input buffer, the checksum `process_telemetry` stores
for the input `h ++ p` with `length = 4 + |p|` is the XOR of all bytes of `h` and `p`
folded from 0, and that value fits 8 bits. -/
theorem checksum_is_xor_of_input (h p rest : List Nat) (hh : h.length = 4)
    (hb : ∀ b ∈ h ++ p, b < 256) :
    (process_telemetry (h ++ p ++ rest) (4 + (p.length : Int))).packet.checksum =
        some ((h ++ p).foldl (fun x b => x ^^^ b) 0) ∧
      (h ++ p).foldl (fun x b => x ^^^ b) 0 < 256 := by
  have hlen : (4 : Int) + (p.length : Int) = (((h ++ p).length : Nat) : Int) := by
    rw [List.length_append, hh]
    push_cast
    rfl
  have hmain := checksum_loop_append (h ++ p) rest hb
  refine ⟨?_, hmain.2⟩
  simp only [process_telemetry]
  rw [hlen]
  exact hmain.1

/-- C6, at the header `TLM0` with the payload `[1, 2, 3]` followed by a terminator. -/
theorem checksum_is_xor_of_input_witness :
    ([84, 76, 77, 48].length = 4 ∧ ∀ b ∈ [84, 76, 77, 48] ++ [1, 2, 3], b < 256) ∧
    ((process_telemetry ([84, 76, 77, 48] ++ [1, 2, 3] ++ [0])
          (4 + (([1, 2, 3] : List Nat).length : Int))).packet.checksum =
        some (([84, 76, 77, 48] ++ [1, 2, 3]).foldl (fun x b => x ^^^ b) 0) ∧
      ([84, 76, 77, 48] ++ [1, 2, 3]).foldl (fun x b => x ^^^ b) 0 < 256) :=
  ⟨⟨by decide, by decide⟩,
    checksum_is_xor_of_input [84, 76, 77, 48] [1, 2, 3] [0] (by decide) (by decide)⟩

/-- C7 (fails on the code): given the header `TLM0` and the one-byte payload `[1]`
(then a terminator), with `length = 5`, the packet has the header bytes of the input
but no payload byte is copied: every slot of the payload region, slot 0 included, is
left indeterminate. -/
theorem short_payload_is_not_copied :
    (process_telemetry [84, 76, 77, 48, 1, 0] 5).packet.header
        = [some 84, some 76, some 77, some 48] ∧
      (process_telemetry [84, 76, 77, 48, 1, 0] 5).packet.payload
        = List.replicate 64 none ∧
      (process_telemetry [84, 76, 77, 48, 1, 0] 5).payload_writes = [] := by
  decide

/-! ## PID gains (C4) -/

/-- For every axis other than 0, 1 and 2, `get_pid_gains` returns the array as it
was declared: all three components indeterminate. -/
theorem get_pid_gains_other_axis {F : Type} (ops : FloatOps F) (axis : Int)
    (h0 : axis ≠ 0) (h1 : axis ≠ 1) (h2 : axis ≠ 2) :
    get_pid_gains ops axis = [none, none, none] := by
  simp [get_pid_gains, h0, h1, h2]

/-- C4 (fails on the code): for axis 3, `get_pid_gains` reports no failure and
returns a triple whose three components are all indeterminate. -/
theorem get_pid_gains_axis_three {F : Type} (ops : FloatOps F) :
    get_pid_gains ops 3 = [none, none, none] := by
  rfl

/-! ## The mixer: in-place update (C12) -/

theorem tdiv_hundred (x : Int) :
    (0 ≤ x → Int.tdiv x 100 = x / 100) ∧ (x ≤ 0 → Int.tdiv x 100 = -((-x) / 100)) := by
  constructor
  · intro h
    exact Int.tdiv_eq_ediv h (by norm_num)
  · intro h
    have e : x = -(-x) := by omega
    rw [e, Int.neg_tdiv, Int.tdiv_eq_ediv (by omega) (by norm_num)]
    simp

/-- C12 (as stated, fails): after `update_motor_speeds` on `{1000, 1000, 1000, 1000}`
with `count = 4` the caller's array holds `{950, 950, 950, 950}`, not the values it
held before the call. -/
theorem caller_array_is_overwritten :
    (update_motor_speeds [some 1000, some 1000, some 1000, some 1000] 4).speeds =
        [some 950, some 950, some 950, some 950] ∧
      (update_motor_speeds [some 1000, some 1000, some 1000, some 1000] 4).speeds ≠
        [some 1000, some 1000, some 1000, some 1000] := by
  decide

/-- C12 (amended): `update_motor_speeds` returns nothing and works in place.  For
every speed array, with `count` its declared length, after the call the caller's
array has the same length and every slot holds the damped value of what the slot
held before the call. -/
theorem caller_array_holds_damped_values (speeds : List (Option Int)) :
    (update_motor_speeds speeds speeds.length).speeds = speeds.map (fun v => v.map damp) ∧
      (update_motor_speeds speeds speeds.length).speeds.length = speeds.length := by
  have h := update_motor_speeds_speeds speeds
  refine ⟨h, ?_⟩
  rw [h, List.length_map]

/-! ## The sensor decode and a tick on a short block (C16, C17) -/

/-- C16: for every register block of at least 9 words `w0, …, w8` (and whatever
follows them), `isr_read_imu` returns the sample whose fields `accel_x`, `accel_y`,
`accel_z`, `gyro_x`, `gyro_y`, `gyro_z`, `altitude`, `battery_voltage` are the float
readings of `w0, …, w7` in that order and whose `timestamp_us` is `w8` as an unsigned
32-bit integer. -/
theorem isr_read_imu_fields {F : Type} (ops : FloatOps F)
    (w0 w1 w2 w3 w4 w5 w6 w7 w8 : Nat) (rest : List Nat) :
    isr_read_imu ops (w0 :: w1 :: w2 :: w3 :: w4 :: w5 :: w6 :: w7 :: w8 :: rest) =
      { accel_x := some (ops.ofBits w0)
        accel_y := some (ops.ofBits w1)
        accel_z := some (ops.ofBits w2)
        gyro_x := some (ops.ofBits w3)
        gyro_y := some (ops.ofBits w4)
        gyro_z := some (ops.ofBits w5)
        altitude := some (ops.ofBits w6)
        battery_voltage := some (ops.ofBits w7)
        timestamp_us := some (w8 % 2 ^ 32) } := by
  rfl

theorem wrapInt32_succ_ne (x : Int) : wrapInt32 (x + 1) ≠ x := by
  unfold wrapInt32
  omega

/-- C17 (as stated, fails): a tick from the empty history on a block of 8 words (word
6, the altitude, being the pattern of `2.0f`) changes the altitude history: the
write count goes from 0 to 1 and slot 0 goes from `0.0` to `2.0`. -/
theorem short_block_tick_changes_history :
    (initialState decodedOps).history_index = 0 ∧
      loadAt (initialState decodedOps).altitude_history 0 = some 0 ∧
      (control_loop decodedOps (initialState decodedOps)
        [0, 0, 0, 0, 0, 0, 1073741824, 0]).state.history_index = 1 ∧
      loadAt (control_loop decodedOps (initialState decodedOps)
        [0, 0, 0, 0, 0, 0, 1073741824, 0]).state.altitude_history 0 = some 2 := by
  refine ⟨rfl, ?_, rfl, ?_⟩
  · have e : loadAt (initialState decodedOps).altitude_history 0 =
        some (decodedOps.lit 0 1) := rfl
    rw [e]
    norm_num [decodedOps, exactOps]
  · have e : loadAt (control_loop decodedOps (initialState decodedOps)
        [0, 0, 0, 0, 0, 0, 1073741824, 0]).state.altitude_history 0 =
        some (decodedOps.ofBits 1073741824) := rfl
    rw [e]
    norm_num [decodedOps, exactOps, binary32Value]

/-! ## The damped value and the algebra of the checksum (C15, C18, C19) -/

/-- C18: for every speed `s` whose product `s * 95` fits a signed 32-bit `int`, the
damped value `s * 95 / 100` lies between 0 and `s`: `0 ≤ result ≤ s` when `s ≥ 0` and
`s ≤ result ≤ 0` when `s ≤ 0`. -/
theorem damp_between_zero_and_input (s : Int) (hlo : -2 ^ 31 ≤ s * 95)
    (hhi : s * 95 < 2 ^ 31) :
    (0 ≤ s → 0 ≤ damp s ∧ damp s ≤ s) ∧ (s ≤ 0 → s ≤ damp s ∧ damp s ≤ 0) := by
  unfold damp
  rw [wrapInt32_of_range _ hlo hhi]
  obtain ⟨hp, hn⟩ := tdiv_hundred (s * 95)
  constructor
  · intro h
    rw [hp (by omega)]
    constructor <;> omega
  · intro h
    rw [hn (by omega)]
    constructor <;> omega

/-- C18, at the speed -7, whose damped value is -6. -/
theorem damp_between_zero_and_input_witness :
    (-2 ^ 31 ≤ (-7 : Int) * 95 ∧ (-7 : Int) * 95 < 2 ^ 31) ∧
    (((0 : Int) ≤ -7 → 0 ≤ damp (-7) ∧ damp (-7) ≤ -7) ∧
      ((-7 : Int) ≤ 0 → -7 ≤ damp (-7) ∧ damp (-7) ≤ 0)) :=
  ⟨⟨by decide, by decide⟩, damp_between_zero_and_input (-7) (by decide) (by decide)⟩

/-- The checksum `process_telemetry` stores for a byte sequence passed with its own
length: the XOR of its bytes, folded from 0. -/
theorem checksum_of_bytes (l : List Nat) (hb : ∀ b ∈ l, b < 256) :
    (process_telemetry l (l.length : Int)).packet.checksum =
      some (l.foldl (fun x b => x ^^^ b) 0) := by
  have h := (checksum_loop_append l [] hb).1
  rw [List.append_nil] at h
  simp only [process_telemetry]
  exact h

theorem xor_fold_start (l : List Nat) (c : Nat) :
    l.foldl (fun x b => x ^^^ b) c = c ^^^ l.foldl (fun x b => x ^^^ b) 0 := by
  induction l generalizing c with
  | nil => simp
  | cons a l ih =>
    simp only [List.foldl_cons]
    rw [ih (c ^^^ a), ih (0 ^^^ a), Nat.zero_xor, Nat.xor_assoc]

theorem xor_fold_perm (a b : List Nat) (hp : a.Perm b) :
    a.foldl (fun x y => x ^^^ y) 0 = b.foldl (fun x y => x ^^^ y) 0 := by
  apply List.Perm.foldl_eq' hp
  intro x _ y _ z
  show z ^^^ x ^^^ y = z ^^^ y ^^^ x
  rw [Nat.xor_assoc, Nat.xor_comm x y, ← Nat.xor_assoc]

theorem checksum_perm (a b : List Nat) (hp : a.Perm b) (hb : ∀ x ∈ a, x < 256) :
    (process_telemetry a (a.length : Int)).packet.checksum =
      (process_telemetry b (b.length : Int)).packet.checksum := by
  have hb2 : ∀ x ∈ b, x < 256 := fun x hx => hb x (hp.mem_iff.mpr hx)
  rw [checksum_of_bytes a hb, checksum_of_bytes b hb2, xor_fold_perm a b hp]

/-- C15 (as stated, fails): there are no two byte sequences that are permutations of
each other and for which `process_telemetry` computes different checksums. -/
theorem checksum_not_order_sensitive :
    ¬ ∃ a b : List Nat, a.Perm b ∧ (∀ x ∈ a, x < 256) ∧
        (process_telemetry a (a.length : Int)).packet.checksum ≠
          (process_telemetry b (b.length : Int)).packet.checksum := by
  rintro ⟨a, b, hp, hb, hne⟩
  exact hne (checksum_perm a b hp hb)

/-- C15 (amended): the telemetry checksum does not depend on the order of the input
bytes: two byte sequences that are permutations of each other get the same
checksum. -/
theorem checksum_order_insensitive (a b : List Nat) (hp : a.Perm b)
    (hb : ∀ x ∈ a, x < 256) :
    (process_telemetry a (a.length : Int)).packet.checksum =
      (process_telemetry b (b.length : Int)).packet.checksum :=
  checksum_perm a b hp hb

/-- C15 (amended), at `TLM0` and its reversal `0MLT`. -/
theorem checksum_order_insensitive_witness :
    (([84, 76, 77, 48] : List Nat).Perm [48, 77, 76, 84] ∧
      ∀ x ∈ ([84, 76, 77, 48] : List Nat), x < 256) ∧
    (process_telemetry [84, 76, 77, 48] (([84, 76, 77, 48] : List Nat).length : Int)
        ).packet.checksum =
      (process_telemetry [48, 77, 76, 84] (([48, 77, 76, 84] : List Nat).length : Int)
        ).packet.checksum :=
  ⟨⟨by decide, by decide⟩,
    checksum_order_insensitive [84, 76, 77, 48] [48, 77, 76, 84] (by decide) (by decide)⟩

/-- C19: for all byte sequences `a` and `b`, the checksum of `a ++ b` is the XOR of
the checksums of `a` and of `b`; and appending to `a` its own checksum byte gives a
sequence whose checksum is 0. -/
theorem checksum_concat (a b : List Nat) (ha : ∀ x ∈ a, x < 256) (hb : ∀ x ∈ b, x < 256) :
    (process_telemetry (a ++ b) ((a ++ b).length : Int)).packet.checksum =
        lift2 (fun x y => x ^^^ y)
          (process_telemetry a (a.length : Int)).packet.checksum
          (process_telemetry b (b.length : Int)).packet.checksum ∧
      ∀ c : Nat, (process_telemetry a (a.length : Int)).packet.checksum = some c →
        (process_telemetry (a ++ [c]) ((a ++ [c]).length : Int)).packet.checksum =
          some 0 := by
  have hab : ∀ x ∈ a ++ b, x < 256 := by
    intro x hx
    rcases List.mem_append.mp hx with h | h
    · exact ha x h
    · exact hb x h
  have hxa : a.foldl (fun x b => x ^^^ b) 0 < 256 := (checksum_loop_append a [] ha).2
  constructor
  · rw [checksum_of_bytes (a ++ b) hab, checksum_of_bytes a ha, checksum_of_bytes b hb,
      List.foldl_append, xor_fold_start b]
    rfl
  · intro c hc
    rw [checksum_of_bytes a ha] at hc
    have hc2 : a.foldl (fun x b => x ^^^ b) 0 = c := Option.some.inj hc
    have hac : ∀ x ∈ a ++ [c], x < 256 := by
      intro x hx
      rcases List.mem_append.mp hx with h | h
      · exact ha x h
      · rw [List.mem_singleton] at h
        rw [h, ← hc2]
        exact hxa
    rw [checksum_of_bytes (a ++ [c]) hac, List.foldl_append, hc2]
    simp

/-- C19, at `a = [1, 2, 3]` and `b = [200, 7]`. -/
theorem checksum_concat_witness :
    ((∀ x ∈ ([1, 2, 3] : List Nat), x < 256) ∧ ∀ x ∈ ([200, 7] : List Nat), x < 256) ∧
    ((process_telemetry ([1, 2, 3] ++ [200, 7])
          ((([1, 2, 3] : List Nat) ++ [200, 7]).length : Int)).packet.checksum =
        lift2 (fun x y => x ^^^ y)
          (process_telemetry [1, 2, 3] (([1, 2, 3] : List Nat).length : Int)).packet.checksum
          (process_telemetry [200, 7] (([200, 7] : List Nat).length : Int)).packet.checksum ∧
      ∀ c : Nat,
        (process_telemetry [1, 2, 3] (([1, 2, 3] : List Nat).length : Int)).packet.checksum
            = some c →
        (process_telemetry ([1, 2, 3] ++ [c])
            ((([1, 2, 3] : List Nat) ++ [c]).length : Int)).packet.checksum = some 0) :=
  ⟨⟨by decide, by decide⟩, checksum_concat [1, 2, 3] [200, 7] (by decide) (by decide)⟩

/-! ## The gains pointer and the tick that reads through it (C13, C5) -/

/-- C13 (fails on the code): for each of the axes 0, 1 and 2 the body of
`get_pid_gains` assigns all three components of its local array, but what the
function hands back is the address of that array, dead once the function has
returned: whatever the axis, the caller reads no determinate component. -/
theorem gains_pointer_dangles {F : Type} (ops : FloatOps F) :
    (get_pid_gains ops 0 = [some (ops.lit 12 1), some (ops.lit 1 2), some (ops.lit 5 1)] ∧
      get_pid_gains ops 1 = [some (ops.lit 10 1), some (ops.lit 2 2), some (ops.lit 4 1)] ∧
      get_pid_gains ops 2 = [some (ops.lit 8 1), some (ops.lit 5 3), some (ops.lit 3 1)]) ∧
    ∀ axis : Int, gains_read_by_caller ops axis = [none, none, none] := by
  refine ⟨⟨rfl, rfl, rfl⟩, ?_⟩
  intro axis
  unfold gains_read_by_caller get_pid_gains
  simp only []
  split
  · rfl
  · split
    · rfl
    · split <;> rfl

/-- C5 (fails on the code): from the empty altitude history, the two calls of
`control_loop` that `main` makes on the all-zero block each read `gains[0]` and
`gains[2]` from the expired array, so the correction is indeterminate and the motor
command is not `[950, 950, 950, 950]`: motors 0 and 2 are indeterminate.  The
vertical speed of the first call is `0.0f`. -/
theorem zero_ticks_read_expired_gains {F : Type} (ops : FloatOps F) :
    (main ops).1.vspeed = some (ops.lit 0 1) ∧
      (main ops).1.correction = none ∧
      (main ops).1.motor_speeds = [none, some 950, none, some 950] ∧
      (main ops).2.correction = none ∧
      (main ops).2.motor_speeds = [none, some 950, none, some 950] := by
  have hc : ∀ (st : HistoryState F) (sb : List Nat),
      (control_loop ops st sb).correction = none := by
    intro st sb
    have e : (control_loop ops st sb).correction =
        lift2 ops.add (lift2 ops.mul none (isr_read_imu ops sb).accel_z)
          (lift2 ops.mul none (compute_vertical_speed ops st
            (isr_read_imu ops sb).altitude).value) := rfl
    rw [e]
    rfl
  have hm : ∀ (st : HistoryState F) (sb : List Nat),
      (control_loop ops st sb).motor_speeds = [none, some 950, none, some 950] := by
    intro st sb
    have e : (control_loop ops st sb).motor_speeds =
        (update_motor_speeds
          (storeAt
            (storeAt [some 1000, some 1000, some 1000, some 1000] 0
              (lift2 (fun a b => wrapInt32 (a + b)) (some 1000)
                ((control_loop ops st sb).correction.map (castInt ops))))
            2 (lift2 (fun a b => wrapInt32 (a - b)) (some 1000)
              ((control_loop ops st sb).correction.map (castInt ops)))) 4).speeds := rfl
    rw [e, hc]
    rfl
  exact ⟨rfl, hc _ _, hm _ _, hc _ _, hm _ _⟩

/-! ## The mixer and a range for its output (C11) -/

/-- Both ends of the range of damped values are reached. -/
theorem damp_range_attained : damp 22605091 = 21474836 ∧ damp (-2147483648) = -21474836 := by
  decide

/-- C17 (amended): `control_loop` takes the register block without a length, does not
validate it and has no failure result.  For every register block shorter than 9
words, a tick made while the write position is inside the array
(`0 ≤ history_index < 256`) does change the altitude history: `history_index` goes up
by one, and when the block holds word 6 the float reading of that word is stored at
the slot `history_index` pointed to. -/
theorem short_block_tick_advances_history {F : Type} (ops : FloatOps F)
    (st : HistoryState F) (sb : List Nat) (_hs : sb.length < 9)
    (h0 : 0 ≤ st.history_index) (h1 : st.history_index < (historyCapacity : Int))
    (hl : st.altitude_history.length = historyCapacity) :
    (control_loop ops st sb).state.history_index = st.history_index + 1 ∧
      ∀ w : Nat, sb.get? 6 = some w →
        loadAtInt (control_loop ops st sb).state.altitude_history st.history_index =
          some (ops.ofBits w) := by
  have hcap : (historyCapacity : Int) = 256 := rfl
  have e : (control_loop ops st sb).state =
      (compute_vertical_speed ops st (isr_read_imu ops sb).altitude).state := rfl
  rw [e, compute_vertical_speed_history, compute_vertical_speed_index]
  constructor
  · exact wrapInt32_of_range _ (by omega) (by omega)
  · intro w hw
    have ha : (isr_read_imu ops sb).altitude = some (ops.ofBits w) := by
      show (sb.get? 6).map ops.ofBits = some (ops.ofBits w)
      rw [hw]
      rfl
    have hlt : st.history_index.toNat < st.altitude_history.length := by
      rw [hl]
      have : (historyCapacity : Int) = ((256 : Nat) : Int) := rfl
      omega
    unfold loadAtInt storeAtInt
    rw [if_pos h0, if_pos h0, loadAt_eq, storeAt_getElem?, if_pos ⟨rfl, hlt⟩, ha]
    rfl

/-- C17 (amended), at the first tick on a block of 8 words whose word 6 is the
pattern of `2.0f`. -/
theorem short_block_tick_advances_history_witness :
    (([0, 0, 0, 0, 0, 0, 1073741824, 0] : List Nat).length < 9 ∧
      0 ≤ (initialState decodedOps).history_index ∧
      (initialState decodedOps).history_index < (historyCapacity : Int) ∧
      (initialState decodedOps).altitude_history.length = historyCapacity) ∧
    ((control_loop decodedOps (initialState decodedOps)
          [0, 0, 0, 0, 0, 0, 1073741824, 0]).state.history_index =
        (initialState decodedOps).history_index + 1 ∧
      ∀ w : Nat, ([0, 0, 0, 0, 0, 0, 1073741824, 0] : List Nat).get? 6 = some w →
        loadAtInt (control_loop decodedOps (initialState decodedOps)
            [0, 0, 0, 0, 0, 0, 1073741824, 0]).state.altitude_history
            (initialState decodedOps).history_index =
          some (decodedOps.ofBits w)) :=
  ⟨⟨by decide, by decide, by decide, by simp [initialState]⟩,
    short_block_tick_advances_history decodedOps (initialState decodedOps)
      [0, 0, 0, 0, 0, 0, 1073741824, 0] (by decide) (by decide) (by decide)
      (by simp [initialState])⟩

end FlightController

namespace VulnDemo

/-! ## The size calculation of `allocate_matrix` (C20) -/

/-- C20 (as stated, fails): for the arguments the demo's `main` passes, `rows = 1000`
and `cols = 1000000`, the 32-bit product is the mathematical product `10^9`, also
when taken modulo `2^32`: the call does not overflow. -/
theorem demo_call_does_not_overflow :
    allocate_matrix_total 1000 1000000 = 1000 * 1000000 ∧
      allocate_matrix_total 1000 1000000 % 2 ^ 32 = 1000 * 1000000 ∧
      main_matrix_request 64 = 1000000000 := by
  decide

/-- C20 (amended): `allocate_matrix` computes its size as the signed 32-bit product
`rows * cols`, and the calculation can overflow: for the positive `int` values
`rows = cols = 65536` the 32-bit result is 0 and, taken modulo `2^32`, differs from
the mathematical product `2^32`.  For the demo's arguments 1000 and 1000000 the
result is the mathematical product. -/
theorem size_calculation_can_overflow :
    (∀ rows cols : Int,
        allocate_matrix_total rows cols = FlightController.wrapInt32 (rows * cols)) ∧
      ((0 : Int) < 65536 ∧ (65536 : Int) < 2 ^ 31 ∧
        allocate_matrix_total 65536 65536 = 0 ∧
        allocate_matrix_total 65536 65536 % 2 ^ 32 ≠ 65536 * 65536) ∧
      allocate_matrix_total 1000 1000000 % 2 ^ 32 = 1000 * 1000000 := by
  refine ⟨fun _ _ => rfl, ?_, ?_⟩ <;> decide

end VulnDemo
